import Mathlib

/-!
Verification development for the ImageLab pixel-transformation engine and its
editor frontend.

The repository ships the Next.js frontend (`frontend/app/edit/page.tsx` and the
unnamed variant of the same page) in source form; the FastAPI backend engine
(`backend/api/image.py` and the `edit` routes, per the repository READMEs) is
not part of the source tree, so the engine's data model, transform catalog,
dispatcher and codec are modelled from the specification.  Definitions taken
from the frontend source are embedded directly from `page.tsx`.
-/

/-- Modelled from the spec: a pixel value type with three channels `r,g,b`,
each in `0..=255` (the range is an invariant proved about the transforms,
not baked into the type). -/
structure Pixel where
  r : Nat
  g : Nat
  b : Nat
deriving Repr, DecidableEq

/-- Modelled from the spec: in-memory representation of decoded image data:
`width`, `height`, and a row-major ordered sequence of pixels whose length is
`width * height` for a well-formed grid. -/
structure PixelGrid where
  width : Nat
  height : Nat
  pixels : List Pixel
deriving Repr, DecidableEq

/-- The pixel used when an index is out of bounds (reads through `getPx`
never occur out of bounds in the transforms, but totality needs a default). -/
def defaultPixel : Pixel := ⟨0, 0, 0⟩

/-- Row-major read of the pixel at column `x`, row `y`. -/
def getPx (g : PixelGrid) (x y : Nat) : Pixel :=
  (g.pixels.get? (y * g.width + x)).getD defaultPixel

/-- Build a grid from a per-coordinate pixel function, laid out row-major. -/
def mkGrid (w h : Nat) (f : Nat → Nat → Pixel) : PixelGrid :=
  ⟨w, h, (List.range (w * h)).map (fun i => f (i % w) (i / w))⟩

/-- Modelled from the spec: clamp a wider-than-8-bit signed intermediate to
`[0,255]` (saturate, never wrap modulo 256). -/
def clampInt (v : Int) : Nat := (min 255 (max 0 v)).toNat

/-- Clamp an unsigned intermediate to at most 255. -/
def clampNat (v : Nat) : Nat := min 255 v

/-- The structural well-formedness invariant of a grid: the row-major buffer
has exactly `width * height` pixels. -/
def PixelGrid.Wf (g : PixelGrid) : Prop :=
  g.pixels.length = g.width * g.height

/-- All three channels of a pixel are in range. -/
def chOK (p : Pixel) : Prop := p.r ≤ 255 ∧ p.g ≤ 255 ∧ p.b ≤ 255

/-- Every pixel of the grid has its channels in `[0,255]`. -/
def ValidChannels (g : PixelGrid) : Prop := ∀ p ∈ g.pixels, chOK p

instance : DecidablePred chOK := fun p => by unfold chOK; infer_instance

instance (g : PixelGrid) : Decidable (ValidChannels g) := by
  unfold ValidChannels; infer_instance

instance (g : PixelGrid) : Decidable (PixelGrid.Wf g) := by
  unfold PixelGrid.Wf; infer_instance

theorem clampInt_le (v : Int) : clampInt v ≤ 255 := by
  unfold clampInt
  omega

theorem clampNat_le (v : Nat) : clampNat v ≤ 255 := by
  unfold clampNat; omega

theorem chOK_defaultPixel : chOK defaultPixel := by
  refine ⟨?_, ?_, ?_⟩ <;> simp [defaultPixel]

theorem chOK_getPx {g : PixelGrid} (hg : ValidChannels g) (x y : Nat) :
    chOK (getPx g x y) := by
  unfold getPx
  cases h : g.pixels.get? (y * g.width + x) with
  | none => simpa using chOK_defaultPixel
  | some p =>
      have hmem : p ∈ g.pixels := List.get?_mem h
      simpa using hg p hmem

theorem mkGrid_width (w h : Nat) (f : Nat → Nat → Pixel) :
    (mkGrid w h f).width = w := rfl

theorem mkGrid_height (w h : Nat) (f : Nat → Nat → Pixel) :
    (mkGrid w h f).height = h := rfl

theorem mkGrid_wf (w h : Nat) (f : Nat → Nat → Pixel) :
    (mkGrid w h f).Wf := by
  unfold mkGrid PixelGrid.Wf
  simp

theorem validChannels_mkGrid {w h : Nat} {f : Nat → Nat → Pixel}
    (hf : ∀ x y, chOK (f x y)) : ValidChannels (mkGrid w h f) := by
  intro p hp
  unfold mkGrid at hp
  simp only [List.mem_map, List.mem_range] at hp
  obtain ⟨i, _, rfl⟩ := hp
  exact hf _ _

theorem getPx_mkGrid {w h : Nat} (f : Nat → Nat → Pixel) {x y : Nat}
    (hx : x < w) (hy : y < h) : getPx (mkGrid w h f) x y = f x y := by
  unfold getPx mkGrid
  have hw : 0 < w := by omega
  have hidx : y * w + x < w * h := by
    calc y * w + x < y * w + w := by omega
    _ = (y + 1) * w := by ring
    _ ≤ h * w := Nat.mul_le_mul_right w hy
    _ = w * h := Nat.mul_comm h w
  have hlen : y * w + x < ((List.range (w * h)).map
      (fun i => f (i % w) (i / w))).length := by
    simpa using hidx
  rw [List.get?_eq_get hlen]
  simp only [List.get_eq_getElem, List.getElem_map, List.getElem_range, Option.getD_some]
  have hmod : (y * w + x) % w = x := by
    rw [Nat.add_comm, Nat.add_mul_mod_self_right, Nat.mod_eq_of_lt hx]
  have hdiv : (y * w + x) / w = y := by
    rw [Nat.add_comm, Nat.add_mul_div_right _ _ hw, Nat.div_eq_of_lt hx, Nat.zero_add]
  rw [hmod, hdiv]

theorem mkGrid_congr {w h : Nat} {f f₂ : Nat → Nat → Pixel}
    (hff : ∀ x y, x < w → y < h → f x y = f₂ x y) : mkGrid w h f = mkGrid w h f₂ := by
  unfold mkGrid
  refine congrArg _ ?_
  refine List.map_congr_left ?_
  intro i hi
  have hi2 : i < w * h := List.mem_range.mp hi
  have hw : 0 < w := by
    by_contra hw0
    have : w = 0 := by omega
    subst this
    simp at hi2
  exact hff _ _ (Nat.mod_lt _ hw) (Nat.div_lt_of_lt_mul (by omega))

theorem list_range_get_eta {α : Type} (l : List α) (d : α) :
    (List.range l.length).map (fun i => (l.get? i).getD d) = l := by
  refine List.ext_get (by simp) ?_
  intro i h1 h2
  simp only [List.get_eq_getElem, List.getElem_map, List.getElem_range]
  have hi : i < l.length := h2
  rw [List.get?_eq_get hi]
  simp

theorem mkGrid_eta {g : PixelGrid} (hg : g.Wf) :
    mkGrid g.width g.height (fun x y => getPx g x y) = g := by
  unfold mkGrid getPx
  cases g with
  | mk w h ps =>
      simp only [PixelGrid.mk.injEq, true_and]
      unfold PixelGrid.Wf at hg
      simp only at hg
      by_cases hw : w = 0
      · subst hw
        simp only [Nat.zero_mul] at hg ⊢
        simp [List.length_eq_zero.mp hg]
      · have hw0 : 0 < w := Nat.pos_of_ne_zero hw
        have : ∀ i, i / w * w + i % w = i := fun i => Nat.div_add_mod' i w
        calc (List.range (w * h)).map (fun i => ((ps.get? (i / w * w + i % w)).getD defaultPixel))
            = (List.range (w * h)).map (fun i => (ps.get? i).getD defaultPixel) := by
              refine List.map_congr_left ?_
              intro i _
              rw [this i]
          _ = ps := by rw [← hg]; exact list_range_get_eta ps defaultPixel

/-- Apply a per-pixel function to every pixel, keeping the dimensions. -/
def mapPixels (f : Pixel → Pixel) (g : PixelGrid) : PixelGrid :=
  ⟨g.width, g.height, g.pixels.map f⟩

/-- Modelled from the spec: `add_color` with signed deltas `dr, dg, db`;
per-pixel `channel' = clamp(channel + delta)`. -/
def add_color (g : PixelGrid) (dr dg db : Int) : PixelGrid :=
  mapPixels (fun p =>
    ⟨clampInt ((p.r : Int) + dr), clampInt ((p.g : Int) + dg), clampInt ((p.b : Int) + db)⟩) g

/-- Modelled from the spec: `red_shift` adds `amount` to the red channel only,
clamped; the other two channels are unchanged. -/
def red_shift (g : PixelGrid) (amount : Int) : PixelGrid :=
  mapPixels (fun p => ⟨clampInt ((p.r : Int) + amount), p.g, p.b⟩) g

/-- Modelled from the spec: `green_shift` adds `amount` to the green channel
only, clamped; the other two channels are unchanged. -/
def green_shift (g : PixelGrid) (amount : Int) : PixelGrid :=
  mapPixels (fun p => ⟨p.r, clampInt ((p.g : Int) + amount), p.b⟩) g

/-- Modelled from the spec: `blue_shift` adds `amount` to the blue channel
only, clamped; the other two channels are unchanged. -/
def blue_shift (g : PixelGrid) (amount : Int) : PixelGrid :=
  mapPixels (fun p => ⟨p.r, p.g, clampInt ((p.b : Int) + amount)⟩) g

/-- Modelled from the spec: `shift_brightness` with a nonnegative factor;
`channel' = clamp(round(channel * factor))` on all channels uniformly.
The factor is modelled as a rational; rounding is half-up, consistently
with the integer transforms. -/
def shift_brightness (g : PixelGrid) (factor : ℚ) : PixelGrid :=
  mapPixels (fun p =>
    ⟨clampInt (round ((p.r : ℚ) * factor)), clampInt (round ((p.g : ℚ) * factor)),
      clampInt (round ((p.b : ℚ) * factor))⟩) g

/-- Modelled from the spec: perceptual luma weighting
`round(0.299 R + 0.587 G + 0.114 B)`, computed in milli-units with half-up
rounding. -/
def luminance (p : Pixel) : Nat :=
  (299 * p.r + 587 * p.g + 114 * p.b + 500) / 1000

/-- Modelled from the spec: `make_monochrome` sets `R=G=B=luminance`. -/
def make_monochrome (g : PixelGrid) : PixelGrid :=
  mapPixels (fun p => ⟨luminance p, luminance p, luminance p⟩) g

/-- Modelled from the spec: `negative` maps `channel' = 255 - channel`. -/
def negative (g : PixelGrid) : PixelGrid :=
  mapPixels (fun p => ⟨255 - p.r, 255 - p.g, 255 - p.b⟩) g

/-- Modelled from the spec: `sepia` applies the fixed 3×3 tone matrix
(0.393 0.769 0.189 / 0.349 0.686 0.168 / 0.272 0.534 0.131) in milli-units
with half-up rounding, each output clamped independently. -/
def sepia (g : PixelGrid) : PixelGrid :=
  mapPixels (fun p =>
    ⟨clampNat ((393 * p.r + 769 * p.g + 189 * p.b + 500) / 1000),
      clampNat ((349 * p.r + 686 * p.g + 168 * p.b + 500) / 1000),
      clampNat ((272 * p.r + 534 * p.g + 131 * p.b + 500) / 1000)⟩) g

/-- Modelled from the spec: `mirror_horizontal` reverses pixel order within
each row. -/
def mirror_horizontal (g : PixelGrid) : PixelGrid :=
  mkGrid g.width g.height (fun x y => getPx g (g.width - 1 - x) y)

/-- Modelled from the spec: `mirror_vertical` reverses row order. -/
def mirror_vertical (g : PixelGrid) : PixelGrid :=
  mkGrid g.width g.height (fun x y => getPx g x (g.height - 1 - y))

/-- Quarter-turn: transpose plus single-axis reversal; dimensions swap. -/
def rot90 (g : PixelGrid) : PixelGrid :=
  mkGrid g.height g.width (fun x y => getPx g y (g.height - 1 - x))

/-- Half-turn: both mirrors composed; dimensions preserved. -/
def rot180 (g : PixelGrid) : PixelGrid :=
  mkGrid g.width g.height (fun x y => getPx g (g.width - 1 - x) (g.height - 1 - y))

/-- Three-quarter-turn: the inverse quarter-turn; dimensions swap. -/
def rot270 (g : PixelGrid) : PixelGrid :=
  mkGrid g.height g.width (fun x y => getPx g (g.width - 1 - y) x)

/-- Modelled from the spec: `rotate` normalizes its degrees argument (any
sign, multiple of 90) into {0,90,180,270} and applies the corresponding
quarter-turn; 0 is the identity. -/
def rotate (g : PixelGrid) (degrees : Int) : PixelGrid :=
  if degrees % 360 = 90 then rot90 g
  else if degrees % 360 = 180 then rot180 g
  else if degrees % 360 = 270 then rot270 g
  else g

/-- Modelled from the spec: `tile` produces `size × size` edge-to-edge
repetitions of the source; output dimensions are `width*size` by
`height*size` (the full-size-repetition reading). -/
def tile (g : PixelGrid) (size : Nat) : PixelGrid :=
  mkGrid (g.width * size) (g.height * size)
    (fun x y => getPx g (x % g.width) (y % g.height))

/-- Modelled from the spec: nearest-neighbor `resize` to `tw × th`;
`srcX = floor(outX * width / targetWidth)`, analogous for Y. -/
def resize (g : PixelGrid) (tw th : Nat) : PixelGrid :=
  mkGrid tw th (fun x y => getPx g (x * g.width / tw) (y * g.height / th))

/-- Clamp a possibly negative window coordinate to `[0, n-1]` (edge-pixel
clamping for convolution windows). -/
def clampCoord (v : Int) (n : Nat) : Nat := min v.toNat (n - 1)

/-- The signed offsets `-r, …, r` of a convolution window of radius `r`. -/
def windowOffsets (r : Nat) : List Int :=
  (List.range (2 * r + 1)).map (fun i => (i : Int) - (r : Int))

/-- All source samples of the blur window centred at `(x, y)`, with
out-of-bounds window coordinates clamped to the nearest edge pixel. -/
def blurSamples (g : PixelGrid) (r : Nat) (x y : Nat) : List Pixel :=
  (windowOffsets r).flatMap (fun dy =>
    (windowOffsets r).map (fun dx =>
      getPx g (clampCoord ((x : Int) + dx) g.width) (clampCoord ((y : Int) + dy) g.height)))

/-- Channel-wise arithmetic mean of a list of pixels (floor division). -/
def meanPixel (l : List Pixel) : Pixel :=
  ⟨(l.map Pixel.r).sum / l.length, (l.map Pixel.g).sum / l.length,
    (l.map Pixel.b).sum / l.length⟩

/-- Modelled from the spec: `blur` is a box-average convolution; each output
pixel is the mean of all source pixels within the square window of the given
radius, with out-of-bounds coordinates clamped to the nearest edge (not
wrapped, not zero-padded). -/
def blur (g : PixelGrid) (r : Nat) : PixelGrid :=
  mkGrid g.width g.height (fun x y => meanPixel (blurSamples g r x y))

/-- The original pixels of the `block × block` cell containing `(x, y)`
(cells at the right/bottom edge may be smaller). -/
def cellSamples (g : PixelGrid) (block : Nat) (x y : Nat) : List Pixel :=
  (List.range (min block (g.height - y / block * block))).flatMap (fun dy =>
    (List.range (min block (g.width - x / block * block))).map (fun dx =>
      getPx g (x / block * block + dx) (y / block * block + dy)))

/-- Modelled from the spec: `pixelate` partitions the grid into
non-overlapping `block × block` cells and replaces every pixel of a cell by
the arithmetic mean of that cell's original pixels. -/
def pixelate (g : PixelGrid) (block : Nat) : PixelGrid :=
  mkGrid g.width g.height (fun x y => meanPixel (cellSamples g block x y))

/-- Modelled from the spec: the transform catalog with validated, typed
parameters. -/
inductive Transform where
  | addColor (dr dg db : Int)
  | redShift (amount : Int)
  | greenShift (amount : Int)
  | blueShift (amount : Int)
  | shiftBrightness (factor : ℚ)
  | makeMonochrome
  | neg
  | sepiaTone
  | mirrorH
  | mirrorV
  | rot (degrees : Int)
  | tileOp (size : Nat)
  | resizeOp (tw th : Nat)
  | blurOp (radius : Nat)
  | pixelateOp (block : Nat)
deriving Repr, DecidableEq

/-- Interpretation of a catalog entry as a pure grid transform. -/
def applyTransform (t : Transform) (g : PixelGrid) : PixelGrid :=
  match t with
  | .addColor dr dg db => add_color g dr dg db
  | .redShift a => red_shift g a
  | .greenShift a => green_shift g a
  | .blueShift a => blue_shift g a
  | .shiftBrightness f => shift_brightness g f
  | .makeMonochrome => make_monochrome g
  | .neg => negative g
  | .sepiaTone => sepia g
  | .mirrorH => mirror_horizontal g
  | .mirrorV => mirror_vertical g
  | .rot d => rotate g d
  | .tileOp s => tile g s
  | .resizeOp tw th => resize g tw th
  | .blurOp r => blur g r
  | .pixelateOp b => pixelate g b

/-- Modelled from the spec: the engine error taxonomy. -/
inductive EngineError where
  | UnsupportedFormat
  | CorruptInput
  | UnknownOperation
  | InvalidParameter
  | ResourceLimitExceeded
deriving Repr, DecidableEq

/-- Modelled from the spec: the coerced, operation-specific parameter bag a
`TransformRequest` carries (each operation reads only its own fields). -/
structure Params where
  dr : Int
  dg : Int
  db : Int
  amount : Int
  factor : ℚ
  size : Int
  degrees : Int
  block : Int
  radius : Int
  targetW : Int
  targetH : Int
deriving Repr, DecidableEq

/-- The catalog names known to the dispatcher. -/
def catalogNames : List String :=
  ["add_color", "red_shift", "green_shift", "blue_shift", "shift_brightness",
   "make_monochrome", "negative", "sepia", "mirror_horizontal",
   "mirror_vertical", "rotate", "tile", "resize", "blur", "pixelate"]

/-- Modelled from the spec: the Operation Dispatcher. It looks the name up in
the catalog (unknown names fail with `UnknownOperation`), validates each
parameter against its stated domain before any pixel work
(`InvalidParameter` otherwise), and only then invokes the transform. -/
def dispatch (g : PixelGrid) (op : String) (p : Params) : Except EngineError PixelGrid :=
  if op = "add_color" then .ok (applyTransform (.addColor p.dr p.dg p.db) g)
  else if op = "red_shift" then .ok (applyTransform (.redShift p.amount) g)
  else if op = "green_shift" then .ok (applyTransform (.greenShift p.amount) g)
  else if op = "blue_shift" then .ok (applyTransform (.blueShift p.amount) g)
  else if op = "shift_brightness" then
    if p.factor < 0 then .error .InvalidParameter
    else .ok (applyTransform (.shiftBrightness p.factor) g)
  else if op = "make_monochrome" then .ok (applyTransform .makeMonochrome g)
  else if op = "negative" then .ok (applyTransform .neg g)
  else if op = "sepia" then .ok (applyTransform .sepiaTone g)
  else if op = "mirror_horizontal" then .ok (applyTransform .mirrorH g)
  else if op = "mirror_vertical" then .ok (applyTransform .mirrorV g)
  else if op = "rotate" then
    if p.degrees % 90 = 0 then .ok (applyTransform (.rot p.degrees) g)
    else .error .InvalidParameter
  else if op = "tile" then
    if p.size < 1 then .error .InvalidParameter
    else .ok (applyTransform (.tileOp p.size.toNat) g)
  else if op = "resize" then
    if p.targetW < 1 ∨ p.targetH < 1 then .error .InvalidParameter
    else .ok (applyTransform (.resizeOp p.targetW.toNat p.targetH.toNat) g)
  else if op = "blur" then
    if p.radius < 1 then .error .InvalidParameter
    else .ok (applyTransform (.blurOp p.radius.toNat) g)
  else if op = "pixelate" then
    if p.block < 1 then .error .InvalidParameter
    else .ok (applyTransform (.pixelateOp p.block.toNat) g)
  else .error .UnknownOperation

/-- Modelled from the spec: the codec's output formats. -/
inductive Format where
  | PNG
  | JPEG
  | WEBP
  | BMP
deriving Repr, DecidableEq

/-- Flatten pixels into a row-major channel byte stream. -/
def flattenPixels : List Pixel → List Nat
  | [] => []
  | p :: ps => p.r :: p.g :: p.b :: flattenPixels ps

/-- Parse a channel byte stream back into pixels (complete triples only). -/
def unflattenPixels : List Nat → List Pixel
  | a :: b :: c :: rest => ⟨a, b, c⟩ :: unflattenPixels rest
  | _ => []

/-- Modelled from the spec: `encode(grid, format, quality)` serializes the
grid into a container for the requested format.  PNG and BMP are lossless
and ignore the quality parameter; JPEG and WEBP record the quality (0–100)
in their stream, so quality affects only those two formats. -/
def encode (g : PixelGrid) (f : Format) (quality : Nat) : List Nat :=
  match f with
  | .PNG => 0 :: g.width :: g.height :: flattenPixels g.pixels
  | .BMP => 1 :: g.width :: g.height :: flattenPixels g.pixels
  | .JPEG => 2 :: quality :: g.width :: g.height :: flattenPixels g.pixels
  | .WEBP => 3 :: quality :: g.width :: g.height :: flattenPixels g.pixels

/-- Modelled from the spec: `decode(bytes)` detects the format by container
content, failing with `UnsupportedFormat` on an unrecognized container and
with `CorruptInput` on a recognized but internally inconsistent one
(truncated pixel payload). -/
def decode (bytes : List Nat) : Except EngineError PixelGrid :=
  match bytes with
  | 0 :: w :: h :: rest =>
      if rest.length = 3 * (w * h) then .ok ⟨w, h, unflattenPixels rest⟩
      else .error .CorruptInput
  | 1 :: w :: h :: rest =>
      if rest.length = 3 * (w * h) then .ok ⟨w, h, unflattenPixels rest⟩
      else .error .CorruptInput
  | 2 :: _ :: w :: h :: rest =>
      if rest.length = 3 * (w * h) then .ok ⟨w, h, unflattenPixels rest⟩
      else .error .CorruptInput
  | 3 :: _ :: w :: h :: rest =>
      if rest.length = 3 * (w * h) then .ok ⟨w, h, unflattenPixels rest⟩
      else .error .CorruptInput
  | _ => .error .UnsupportedFormat

/-- A grid every pixel of which is the same color. -/
def uniformGrid (w h : Nat) (c : Pixel) : PixelGrid :=
  mkGrid w h (fun _ _ => c)

/-- The result of the ECMAScript string-to-number coercion as the frontend
observes it through Number.isFinite: a finite value, an infinity, or NaN. -/
inductive JSNum where
  | finite (q : ℚ)
  | infinite
  | nan
deriving Repr, DecidableEq

/-- True exactly when Number.isFinite holds of the coerced value. -/
def JSNum.isFinite : JSNum → Bool
  | .finite _ => true
  | _ => false

/-- Value of a list of decimal digit characters. -/
def digitsVal (l : List Char) : Nat :=
  l.foldl (fun a c => a * 10 + (c.toNat - 48)) 0

/-- The integer data of an unsigned decimal literal: integer-part value,
fraction-digits value, fraction length, and exponent. -/
structure DecLit where
  ip : Nat
  fp : Nat
  fl : Nat
  ex : Int
deriving Repr, DecidableEq

/-- The exact rational value of an unsigned decimal literal. -/
def DecLit.val (d : DecLit) : ℚ :=
  ((d.ip : ℚ) + (d.fp : ℚ) / (10 : ℚ) ^ d.fl) * (10 : ℚ) ^ d.ex

/-- Parse the mantissa of a decimal literal: digits, optionally with a dot
and fraction digits; at least one digit overall. -/
def parseMantissa (l : List Char) : Option (Nat × Nat × Nat) :=
  match l.span Char.isDigit with
  | (ip, []) => if ip.isEmpty then none else some (digitsVal ip, 0, 0)
  | (ip, '.' :: fp) =>
      if fp.all Char.isDigit && !(ip.isEmpty && fp.isEmpty) then
        some (digitsVal ip, digitsVal fp, fp.length)
      else none
  | _ => none

/-- Parse the exponent part of a decimal literal: an optional sign and at
least one digit. -/
def parseExpPart (l : List Char) : Option Int :=
  match l with
  | '+' :: ds =>
      if !ds.isEmpty && ds.all Char.isDigit then some (digitsVal ds : Int) else none
  | '-' :: ds =>
      if !ds.isEmpty && ds.all Char.isDigit then some (-(digitsVal ds : Int)) else none
  | ds =>
      if !ds.isEmpty && ds.all Char.isDigit then some (digitsVal ds : Int) else none

/-- Parse an unsigned decimal literal with optional exponent. -/
def parseDec (l : List Char) : Option DecLit :=
  match l.span (fun c => c != 'e' && c != 'E') with
  | (m, []) =>
      match parseMantissa m with
      | some (i, f, n) => some ⟨i, f, n, 0⟩
      | none => none
  | (m, _ :: ex) =>
      match parseMantissa m, parseExpPart ex with
      | some (i, f, n), some ev => some ⟨i, f, n, ev⟩
      | _, _ => none

/-- Strip leading and trailing whitespace from a character list. -/
def trimWS (l : List Char) : List Char :=
  ((l.dropWhile Char.isWhitespace).reverse.dropWhile Char.isWhitespace).reverse

/-- Split an optional leading sign off a literal: `-1` for a minus sign,
`1` otherwise, paired with the remaining characters. -/
def signSplit (l : List Char) : Int × List Char :=
  match l with
  | '+' :: t => (1, t)
  | '-' :: t => (-1, t)
  | t => (1, t)

/-- The ECMAScript ToNumber coercion on strings, on the grammar fragment the
editor's numeric inputs produce: leading/trailing whitespace is trimmed, the
empty string coerces to finite 0, an optionally signed Infinity is infinite,
an optionally signed decimal literal (digits, optional fraction, optional
exponent) is finite, and everything else is NaN. -/
def toNumber (s : String) : JSNum :=
  match trimWS s.toList with
  | [] => .finite 0
  | l =>
      if (signSplit l).2 = ['I', 'n', 'f', 'i', 'n', 'i', 't', 'y'] then .infinite
      else
        match parseDec (signSplit l).2 with
        | some d => .finite (((signSplit l).1 : ℚ) * d.val)
        | none => .nan

/-- Embedded from `frontend/app/edit/page.tsx` (`num`): coerce the field
string with Number and keep it only when finite, otherwise use the
fallback. -/
def num (s : String) (fallback : ℚ) : ℚ :=
  match toNumber s with
  | .finite n => n
  | _ => fallback

/-- Embedded from `frontend/app/edit/page.tsx` (`apply`, add_color branch):
the delta sent for each of r, g, b is `num(field, 0)`. -/
def addColorDeltaSent (s : String) : ℚ := num s 0

/-- Embedded from `frontend/app/edit/page.tsx` (`apply`, shift branches):
the amount sent for red/green/blue_shift is `num(amount, 0)`. -/
def amountSent (s : String) : ℚ := num s 0

/-- Embedded from `frontend/app/edit/page.tsx` (`apply`, shift_brightness
branch): the factor sent is `num(factor, 1)`. -/
def factorSent (s : String) : ℚ := num s 1

/-- Embedded from `frontend/app/edit/page.tsx` (`apply`, tile branch): the
size sent is `Math.max(1, num(size, 2))`. -/
def tileSizeSent (s : String) : ℚ := max 1 (num s 2)

/-- Embedded from `frontend/app/edit/page.tsx` (`apply`, rotate branch): the
degrees value computed is `num(degrees, 90)` (then checked against % 90). -/
def degreesSent (s : String) : ℚ := num s 90

/-- Embedded from `frontend/app/edit/page.tsx` (`apply`, pixelate branch):
the block sent is `num(block, 8)`, forwarded without a floor. -/
def blockSent (s : String) : ℚ := num s 8

/-- Embedded from `frontend/app/edit/page.tsx`: the blob references the edit
page keeps (`currentBlob`, `originalBlob`, `hasModifications`). -/
structure EditorState (β : Type) where
  currentBlob : Option β
  originalBlob : Option β
  hasModifications : Bool
deriving Repr, DecidableEq

/-- The editor events that touch the blob references: `onPick` (a new file is
chosen), a successful non-AI `apply` response, and `reset`. -/
inductive EditorEvent (β : Type) where
  | pick (f : β)
  | applyOk (result : β)
  | reset
deriving Repr, DecidableEq

/-- Embedded from `frontend/app/edit/page.tsx`: `onPick` stores the file in
both refs and clears the modification flag; a successful `apply` stores the
response blob in `currentBlob`, keeps `originalBlob` (initializing it only
when absent) and sets the flag; `reset` copies `originalBlob` back into
`currentBlob` and clears the flag (and does nothing without an original). -/
def editorStep {β : Type} (s : EditorState β) : EditorEvent β → EditorState β
  | .pick f => ⟨some f, some f, false⟩
  | .applyOk b => ⟨some b, some (s.originalBlob.getD b), true⟩
  | .reset =>
      match s.originalBlob with
      | some o => ⟨some o, some o, false⟩
      | none => s

/-- Run a list of editor events from a state. -/
def editorRun {β : Type} (s : EditorState β) (evs : List (EditorEvent β)) : EditorState β :=
  evs.foldl editorStep s

theorem toNumber_fin (s : String) (c : Char) (cs : List Char) (sg : Int) (body : List Char) (d : DecLit)
    (h1 : trimWS s.toList = c :: cs) (h3 : signSplit (c :: cs) = (sg, body))
    (h4 : body ≠ ['I', 'n', 'f', 'i', 'n', 'i', 't', 'y']) (h5 : parseDec body = some d) :
    toNumber s = .finite ((sg : ℚ) * d.val) := by
  unfold toNumber
  rw [h1]
  simp [h3, h4, h5]

theorem toNumber_isnan (s : String) (c : Char) (cs : List Char) (sg : Int) (body : List Char)
    (h1 : trimWS s.toList = c :: cs) (h3 : signSplit (c :: cs) = (sg, body))
    (h4 : body ≠ ['I', 'n', 'f', 'i', 'n', 'i', 't', 'y']) (h5 : parseDec body = none) :
    toNumber s = .nan := by
  unfold toNumber
  rw [h1]
  simp [h3, h4, h5]

theorem num_of_fin {s : String} {q : ℚ} (h : toNumber s = .finite q) (f : ℚ) :
    num s f = q := by
  unfold num
  rw [h]

theorem num_of_not_fin {s : String} (h : (toNumber s).isFinite = false) (f : ℚ) :
    num s f = f := by
  unfold num
  cases h2 : toNumber s with
  | finite q => rw [h2] at h; simp [JSNum.isFinite] at h
  | infinite => rfl
  | nan => rfl

theorem rowmajor_lt {w h x y : Nat} (hx : x < w) (hy : y < h) :
    y * w + x < w * h := by
  calc y * w + x < (y + 1) * w := by
        have : (y + 1) * w = y * w + w := by ring
        omega
  _ ≤ h * w := Nat.mul_le_mul_right w hy
  _ = w * h := Nat.mul_comm h w

theorem getPx_mapPixels (f : Pixel → Pixel) {g : PixelGrid} {x y : Nat} (hg : g.Wf)
    (hx : x < g.width) (hy : y < g.height) :
    getPx (mapPixels f g) x y = f (getPx g x y) := by
  unfold getPx mapPixels
  simp only
  have hidx : y * g.width + x < g.pixels.length := by
    rw [hg]; exact rowmajor_lt hx hy
  rw [List.get?_map, List.get?_eq_get hidx]
  simp

theorem div_le_255 {s c : Nat} (h : s ≤ c * 255) : s / c ≤ 255 := by
  cases c with
  | zero => simp
  | succ n =>
      calc s / (n + 1) ≤ (n + 1) * 255 / (n + 1) := Nat.div_le_div_right h
      _ = 255 := Nat.mul_div_cancel_left _ (by omega)

theorem sum_le_of_all_le {l : List Nat} {v : Nat} (h : ∀ x ∈ l, x ≤ v) :
    l.sum ≤ l.length * v := by
  induction l with
  | nil => simp
  | cons a t ih =>
      have ha := h a (List.mem_cons_self a t)
      have ht := ih (fun x hx => h x (List.mem_cons_of_mem a hx))
      simp only [List.sum_cons, List.length_cons]
      calc a + t.sum ≤ v + t.length * v := by omega
      _ = (t.length + 1) * v := by ring

theorem chOK_meanPixel {l : List Pixel} (h : ∀ p ∈ l, chOK p) :
    chOK (meanPixel l) := by
  unfold meanPixel chOK
  simp only
  refine ⟨?_, ?_, ?_⟩
  · refine div_le_255 ?_
    have hs := sum_le_of_all_le (l := l.map Pixel.r) (v := 255) ?_
    · simpa using hs
    · intro x hx
      simp only [List.mem_map] at hx
      obtain ⟨p, hp, rfl⟩ := hx
      exact (h p hp).1
  · refine div_le_255 ?_
    have hs := sum_le_of_all_le (l := l.map Pixel.g) (v := 255) ?_
    · simpa using hs
    · intro x hx
      simp only [List.mem_map] at hx
      obtain ⟨p, hp, rfl⟩ := hx
      exact (h p hp).2.1
  · refine div_le_255 ?_
    have hs := sum_le_of_all_le (l := l.map Pixel.b) (v := 255) ?_
    · simpa using hs
    · intro x hx
      simp only [List.mem_map] at hx
      obtain ⟨p, hp, rfl⟩ := hx
      exact (h p hp).2.2

theorem sum_of_all_eq {l : List Nat} {v : Nat} (h : ∀ x ∈ l, x = v) :
    l.sum = l.length * v := by
  induction l with
  | nil => simp
  | cons a t ih =>
      have ha := h a (List.mem_cons_self a t)
      have ht := ih (fun x hx => h x (List.mem_cons_of_mem a hx))
      simp only [List.sum_cons, List.length_cons]
      subst ha
      rw [ht]
      ring

theorem meanPixel_const {l : List Pixel} {c : Pixel} (hne : l ≠ [])
    (h : ∀ p ∈ l, p = c) : meanPixel l = c := by
  have hlen : l.length ≠ 0 := fun h0 => hne (List.length_eq_zero.mp h0)
  unfold meanPixel
  have hr : (l.map Pixel.r).sum = l.length * c.r := by
    have := sum_of_all_eq (l := l.map Pixel.r) (v := c.r) ?_
    · simpa using this
    · intro x hx
      simp only [List.mem_map] at hx
      obtain ⟨p, hp, rfl⟩ := hx
      rw [h p hp]
  have hgreen : (l.map Pixel.g).sum = l.length * c.g := by
    have := sum_of_all_eq (l := l.map Pixel.g) (v := c.g) ?_
    · simpa using this
    · intro x hx
      simp only [List.mem_map] at hx
      obtain ⟨p, hp, rfl⟩ := hx
      rw [h p hp]
  have hb : (l.map Pixel.b).sum = l.length * c.b := by
    have := sum_of_all_eq (l := l.map Pixel.b) (v := c.b) ?_
    · simpa using this
    · intro x hx
      simp only [List.mem_map] at hx
      obtain ⟨p, hp, rfl⟩ := hx
      rw [h p hp]
  rw [hr, hgreen, hb]
  cases c with
  | mk cr cg cb =>
      simp only [Pixel.mk.injEq]
      refine ⟨?_, ?_, ?_⟩ <;> exact Nat.mul_div_cancel_left _ (Nat.pos_of_ne_zero hlen)

theorem chOK_blurSamples {g : PixelGrid} (hg : ValidChannels g) (r x y : Nat) :
    ∀ p ∈ blurSamples g r x y, chOK p := by
  intro p hp
  simp only [blurSamples, List.mem_flatMap, List.mem_map] at hp
  obtain ⟨dy, _, dx, _, rfl⟩ := hp
  exact chOK_getPx hg _ _

theorem chOK_cellSamples {g : PixelGrid} (hg : ValidChannels g) (block x y : Nat) :
    ∀ p ∈ cellSamples g block x y, chOK p := by
  intro p hp
  simp only [cellSamples, List.mem_flatMap, List.mem_map, List.mem_range] at hp
  obtain ⟨dy, _, dx, _, rfl⟩ := hp
  exact chOK_getPx hg _ _

theorem validChannels_mapPixels {g : PixelGrid} {f : Pixel → Pixel}
    (hg : ValidChannels g) (hf : ∀ p, chOK p → chOK (f p)) :
    ValidChannels (mapPixels f g) := by
  intro p hp
  unfold mapPixels at hp
  simp only [List.mem_map] at hp
  obtain ⟨q, hq, rfl⟩ := hp
  exact hf q (hg q hq)

theorem luminance_le {p : Pixel} (hp : chOK p) : luminance p ≤ 255 := by
  unfold luminance
  unfold chOK at hp
  omega

theorem unflatten_flatten (ps : List Pixel) :
    unflattenPixels (flattenPixels ps) = ps := by
  induction ps with
  | nil => rfl
  | cons p t ih =>
      cases p with
      | mk a b c => simp [flattenPixels, unflattenPixels, ih]

theorem flattenPixels_length (ps : List Pixel) :
    (flattenPixels ps).length = 3 * ps.length := by
  induction ps with
  | nil => rfl
  | cons p t ih => simp [flattenPixels, ih]; ring

/-- A small sample grid used by concrete witnesses. -/
def exGrid : PixelGrid := mkGrid 2 3 (fun x y => ⟨40 * x + y, 100 + x, 7 * y⟩)

/-- C1: for every transform in the catalog and every input grid whose
channels are in range, every channel value of the output grid lies in
[0,255]; out-of-range intermediates are saturated by clamping (clampInt 300
is 255, clampInt (-42) is 0), never wrapped modulo 256. -/
theorem C1_channel_range (t : Transform) (g : PixelGrid) (hg : ValidChannels g) :
    ValidChannels (applyTransform t g) ∧
    clampInt 300 = 255 ∧ clampInt (-42) = 0 ∧ clampInt 300 ≠ 300 % 256 := by
  refine ⟨?_, by decide, by decide, by decide⟩
  cases t with
  | addColor dr dg db =>
      refine validChannels_mapPixels hg ?_
      intro p _
      exact ⟨clampInt_le _, clampInt_le _, clampInt_le _⟩
  | redShift a =>
      refine validChannels_mapPixels hg ?_
      intro p hp
      exact ⟨clampInt_le _, hp.2.1, hp.2.2⟩
  | greenShift a =>
      refine validChannels_mapPixels hg ?_
      intro p hp
      exact ⟨hp.1, clampInt_le _, hp.2.2⟩
  | blueShift a =>
      refine validChannels_mapPixels hg ?_
      intro p hp
      exact ⟨hp.1, hp.2.1, clampInt_le _⟩
  | shiftBrightness f =>
      refine validChannels_mapPixels hg ?_
      intro p _
      exact ⟨clampInt_le _, clampInt_le _, clampInt_le _⟩
  | makeMonochrome =>
      refine validChannels_mapPixels hg ?_
      intro p hp
      exact ⟨luminance_le hp, luminance_le hp, luminance_le hp⟩
  | neg =>
      refine validChannels_mapPixels hg ?_
      intro p hp
      exact ⟨Nat.sub_le _ _, Nat.sub_le _ _, Nat.sub_le _ _⟩
  | sepiaTone =>
      refine validChannels_mapPixels hg ?_
      intro p _
      exact ⟨clampNat_le _, clampNat_le _, clampNat_le _⟩
  | mirrorH => exact validChannels_mkGrid fun x y => chOK_getPx hg _ _
  | mirrorV => exact validChannels_mkGrid fun x y => chOK_getPx hg _ _
  | rot d =>
      show ValidChannels (rotate g d)
      unfold rotate rot90 rot180 rot270
      split
      · exact validChannels_mkGrid fun x y => chOK_getPx hg _ _
      · split
        · exact validChannels_mkGrid fun x y => chOK_getPx hg _ _
        · split
          · exact validChannels_mkGrid fun x y => chOK_getPx hg _ _
          · exact hg
  | tileOp s => exact validChannels_mkGrid fun x y => chOK_getPx hg _ _
  | resizeOp tw th => exact validChannels_mkGrid fun x y => chOK_getPx hg _ _
  | blurOp r =>
      exact validChannels_mkGrid fun x y => chOK_meanPixel (chOK_blurSamples hg r x y)
  | pixelateOp b =>
      exact validChannels_mkGrid fun x y => chOK_meanPixel (chOK_cellSamples hg b x y)

/-- Witness for C1 at a concrete transform and grid. -/
theorem C1_witness : ValidChannels (applyTransform (.addColor 300 0 0) exGrid) :=
  (C1_channel_range (.addColor 300 0 0) exGrid (by decide)).1

/-- A parameter bag used by concrete witnesses (degrees 45, all sizes 0). -/
def exParams : Params := ⟨0, 0, 0, 0, 1, 0, 45, 0, 0, 0, 0⟩

/-- C2: a request whose parameter lies outside its stated domain (resize
with a target dimension below 1, rotate with degrees not a multiple of 90,
tile/pixelate/blur with a non-positive size) fails with InvalidParameter,
an unknown operation name fails with UnknownOperation, and the failing
dispatch returns an error alone, never a grid. -/
theorem C2_validation (g : PixelGrid) (p : Params) :
    (p.degrees % 90 ≠ 0 → dispatch g "rotate" p = .error .InvalidParameter) ∧
    (p.targetW < 1 ∨ p.targetH < 1 → dispatch g "resize" p = .error .InvalidParameter) ∧
    (p.size ≤ 0 → dispatch g "tile" p = .error .InvalidParameter) ∧
    (p.block ≤ 0 → dispatch g "pixelate" p = .error .InvalidParameter) ∧
    (p.radius ≤ 0 → dispatch g "blur" p = .error .InvalidParameter) ∧
    (∀ op : String, op ∉ catalogNames → dispatch g op p = .error .UnknownOperation) ∧
    (∀ op e g2, dispatch g op p = .error e → dispatch g op p ≠ .ok g2) := by
  refine ⟨?_, ?_, ?_, ?_, ?_, ?_, ?_⟩
  · intro h
    simp [dispatch, h]
  · intro h
    simp [dispatch, h]
  · intro h
    have h2 : p.size < 1 := by omega
    simp [dispatch, h2]
  · intro h
    have h2 : p.block < 1 := by omega
    simp [dispatch, h2]
  · intro h
    have h2 : p.radius < 1 := by omega
    simp [dispatch, h2]
  · intro op hop
    simp only [catalogNames, List.mem_cons, List.not_mem_nil, or_false, not_or] at hop
    obtain ⟨h1, h2, h3, h4, h5, h6, h7, h8, h9, h10, h11, h12, h13, h14, h15⟩ := hop
    simp [dispatch, h1, h2, h3, h4, h5, h6, h7, h8, h9, h10, h11, h12, h13, h14, h15]
  · intro op e g2 he hok
    rw [he] at hok
    exact Except.noConfusion hok

/-- Witness for C2: rotate by 45 and an unknown operation fail on a
concrete grid. -/
theorem C2_witness :
    dispatch exGrid "rotate" exParams = .error .InvalidParameter ∧
    dispatch exGrid "swirl" exParams = .error .UnknownOperation :=
  ⟨(C2_validation exGrid exParams).1 (by decide),
    (C2_validation exGrid exParams).2.2.2.2.2.1 "swirl" (by decide)⟩

/-- C3: add_color maps every pixel channel to clamp(channel + delta); on a
pixel with r=100, a delta of +300 saturates to 255 and a delta of -300
saturates to 0. -/
theorem C3_add_color (g : PixelGrid) (dr dg db : Int) (hg : g.Wf) :
    (∀ x y, x < g.width → y < g.height →
      getPx (add_color g dr dg db) x y =
        ⟨clampInt (((getPx g x y).r : Int) + dr), clampInt (((getPx g x y).g : Int) + dg),
          clampInt (((getPx g x y).b : Int) + db)⟩) ∧
    getPx (add_color (uniformGrid 1 1 ⟨100, 100, 100⟩) 300 0 0) 0 0 = ⟨255, 100, 100⟩ ∧
    getPx (add_color (uniformGrid 1 1 ⟨100, 100, 100⟩) (-300) 0 0) 0 0 = ⟨0, 100, 100⟩ := by
  refine ⟨?_, by decide, by decide⟩
  intro x y hx hy
  unfold add_color
  rw [getPx_mapPixels _ hg hx hy]

/-- Witness for C3 at the concrete boundary pixel. -/
theorem C3_witness :
    getPx (add_color (uniformGrid 1 1 ⟨100, 100, 100⟩) 300 0 0) 0 0 = ⟨255, 100, 100⟩ :=
  (C3_add_color (uniformGrid 1 1 ⟨100, 100, 100⟩) 300 0 0 (by decide)).2.1

theorem rotate_90_eq (g : PixelGrid) : rotate g 90 = rot90 g := by
  unfold rotate
  norm_num

theorem rotate_270_eq (g : PixelGrid) : rotate g 270 = rot270 g := by
  unfold rotate
  norm_num

theorem rotate_180_eq (g : PixelGrid) : rotate g 180 = rot180 g := by
  unfold rotate
  norm_num

theorem rotate_360_eq (g : PixelGrid) : rotate g 360 = g := by
  unfold rotate
  norm_num

theorem rot270_rot90 {x : PixelGrid} (hx : x.Wf) : rot270 (rot90 x) = x := by
  have h1 : rot90 x = mkGrid x.height x.width (fun a b => getPx x b (x.height - 1 - a)) := rfl
  calc rot270 (rot90 x)
      = mkGrid x.width x.height (fun a b => getPx (rot90 x) (x.height - 1 - b) a) := rfl
    _ = mkGrid x.width x.height (fun a b => getPx x a b) := by
        refine mkGrid_congr ?_
        intro a b ha hb
        have hb2 : x.height - 1 - b < x.height := by omega
        rw [h1, getPx_mkGrid _ hb2 ha]
        have : x.height - 1 - (x.height - 1 - b) = b := by omega
        rw [this]
    _ = x := mkGrid_eta hx

theorem rot180_eq_mirrors (x : PixelGrid) :
    rot180 x = mirror_vertical (mirror_horizontal x) := by
  have h1 : mirror_horizontal x =
      mkGrid x.width x.height (fun a b => getPx x (x.width - 1 - a) b) := rfl
  calc rot180 x
      = mkGrid x.width x.height (fun a b => getPx x (x.width - 1 - a) (x.height - 1 - b)) := rfl
    _ = mkGrid x.width x.height
        (fun a b => getPx (mirror_horizontal x) a (x.height - 1 - b)) := by
        refine mkGrid_congr ?_
        intro a b ha hb
        have hb2 : x.height - 1 - b < x.height := by omega
        rw [h1, getPx_mkGrid _ ha hb2]
    _ = mirror_vertical (mirror_horizontal x) := rfl

/-- C4: rotate normalizes any multiple of 90 into {0,90,180,270};
rotating by 90 then 270 is the identity, rotating by 360 is the identity,
a 90-degree rotation swaps width and height, and 180 degrees equals both
mirrors composed. -/
theorem C4_rotate (x : PixelGrid) (hx : x.Wf) :
    (∀ d : Int, d % 90 = 0 → d % 360 = 0 ∨ d % 360 = 90 ∨ d % 360 = 180 ∨ d % 360 = 270) ∧
    rotate (rotate x 90) 270 = x ∧
    rotate x 360 = x ∧
    (rotate x 90).width = x.height ∧ (rotate x 90).height = x.width ∧
    rotate x 180 = mirror_vertical (mirror_horizontal x) := by
  refine ⟨?_, ?_, rotate_360_eq x, ?_, ?_, ?_⟩
  · intro d hd
    omega
  · rw [rotate_90_eq, rotate_270_eq]
    exact rot270_rot90 hx
  · rw [rotate_90_eq]
    rfl
  · rw [rotate_90_eq]
    rfl
  · rw [rotate_180_eq]
    exact rot180_eq_mirrors x

/-- Witness for C4 on a concrete grid. -/
theorem C4_witness : rotate (rotate exGrid 90) 270 = exGrid :=
  (C4_rotate exGrid (by decide)).2.1

/-- C5: tile produces a grid of width*size by height*size consisting of
edge-to-edge copies of the source (pixel (x,y) of the output is pixel
(x mod width, y mod height) of the source); size 1 is the identity and the
top-left block equals the source exactly. -/
theorem C5_tile (g : PixelGrid) (s : Nat) (hg : g.Wf) (hs : 1 ≤ s) :
    (tile g s).width = g.width * s ∧
    (tile g s).height = g.height * s ∧
    tile g 1 = g ∧
    (∀ x y, x < g.width * s → y < g.height * s →
      getPx (tile g s) x y = getPx g (x % g.width) (y % g.height)) ∧
    (∀ x y, x < g.width → y < g.height → getPx (tile g s) x y = getPx g x y) := by
  have hgen : ∀ x y, x < g.width * s → y < g.height * s →
      getPx (tile g s) x y = getPx g (x % g.width) (y % g.height) := by
    intro x y hx hy
    unfold tile
    exact getPx_mkGrid _ hx hy
  refine ⟨rfl, rfl, ?_, hgen, ?_⟩
  · have h1 : tile g 1 =
        mkGrid (g.width * 1) (g.height * 1) (fun a b => getPx g (a % g.width) (b % g.height)) := rfl
    rw [h1, Nat.mul_one, Nat.mul_one]
    calc mkGrid g.width g.height (fun a b => getPx g (a % g.width) (b % g.height))
        = mkGrid g.width g.height (fun a b => getPx g a b) := by
          refine mkGrid_congr ?_
          intro a b ha hb
          rw [Nat.mod_eq_of_lt ha, Nat.mod_eq_of_lt hb]
      _ = g := mkGrid_eta hg
  · intro x y hx hy
    have hxs : x < g.width * s := by
      calc x < g.width := hx
      _ = g.width * 1 := (Nat.mul_one _).symm
      _ ≤ g.width * s := Nat.mul_le_mul_left _ hs
    have hys : y < g.height * s := by
      calc y < g.height := hy
      _ = g.height * 1 := (Nat.mul_one _).symm
      _ ≤ g.height * s := Nat.mul_le_mul_left _ hs
    rw [hgen x y hxs hys, Nat.mod_eq_of_lt hx, Nat.mod_eq_of_lt hy]

/-- A 10 by 20 sample grid for the tile witness. -/
def exGrid10 : PixelGrid := mkGrid 10 20 (fun x y => ⟨x, y, x + y⟩)

/-- Witness for C5: tiling a 10 by 20 grid with size 3 gives a 30 by 60 grid
whose top-left block equals the source. -/
theorem C5_witness :
    (tile exGrid10 3).width = 30 ∧ (tile exGrid10 3).height = 60 ∧
    getPx (tile exGrid10 3) 4 7 = getPx exGrid10 4 7 := by
  have h := C5_tile exGrid10 3 (mkGrid_wf 10 20 _) (by decide)
  refine ⟨?_, ?_, h.2.2.2.2 4 7 (by decide) (by decide)⟩
  · rw [h.1]
    rfl
  · rw [h.2.1]
    rfl

/-- C6: for every well-formed grid, decode inverts PNG encoding exactly;
PNG and BMP are lossless and ignore the quality parameter, while the JPEG
and WEBP streams depend on it. -/
theorem C6_codec (g : PixelGrid) (q q1 q2 : Nat) (hg : g.Wf) :
    decode (encode g .PNG q) = .ok g ∧
    decode (encode g .BMP q) = .ok g ∧
    encode g .PNG q1 = encode g .PNG q2 ∧
    encode g .BMP q1 = encode g .BMP q2 ∧
    encode exGrid .JPEG 10 ≠ encode exGrid .JPEG 90 ∧
    encode exGrid .WEBP 10 ≠ encode exGrid .WEBP 90 := by
  have hlen : (flattenPixels g.pixels).length = 3 * (g.width * g.height) := by
    rw [flattenPixels_length, hg]
  refine ⟨?_, ?_, rfl, rfl, by decide, by decide⟩
  · have hred : decode (0 :: g.width :: g.height :: flattenPixels g.pixels) =
        if (flattenPixels g.pixels).length = 3 * (g.width * g.height) then
          .ok ⟨g.width, g.height, unflattenPixels (flattenPixels g.pixels)⟩
        else .error .CorruptInput := rfl
    show decode (0 :: g.width :: g.height :: flattenPixels g.pixels) = .ok g
    rw [hred, if_pos hlen, unflatten_flatten]
  · have hred : decode (1 :: g.width :: g.height :: flattenPixels g.pixels) =
        if (flattenPixels g.pixels).length = 3 * (g.width * g.height) then
          .ok ⟨g.width, g.height, unflattenPixels (flattenPixels g.pixels)⟩
        else .error .CorruptInput := rfl
    show decode (1 :: g.width :: g.height :: flattenPixels g.pixels) = .ok g
    rw [hred, if_pos hlen, unflatten_flatten]

/-- Witness for C6 on a concrete grid. -/
theorem C6_witness : decode (encode exGrid .PNG 5) = .ok exGrid :=
  (C6_codec exGrid 5 1 2 (mkGrid_wf 2 3 _)).1

theorem windowOffsets_ne_nil (r : Nat) : windowOffsets r ≠ [] := by
  unfold windowOffsets
  simp [List.map_eq_nil_iff, List.range_eq_nil]
  exact ⟨0, by omega⟩

theorem blurSamples_ne_nil (g : PixelGrid) (r x y : Nat) :
    blurSamples g r x y ≠ [] := by
  unfold blurSamples
  intro hnil
  rw [List.flatMap_eq_nil_iff] at hnil
  obtain ⟨dy, hdy⟩ := List.exists_mem_of_ne_nil _ (windowOffsets_ne_nil r)
  have h2 := hnil dy hdy
  rw [List.map_eq_nil_iff] at h2
  exact windowOffsets_ne_nil r h2

/-- C7: blur is the box-average convolution with edge-clamped windows, so
blurring a uniform single-color image with any positive radius returns the
identical image. -/
theorem C7_blur_uniform (w h : Nat) (c : Pixel) (r : Nat) (hr : 0 < r) :
    blur (uniformGrid w h c) r = uniformGrid w h c := by
  show mkGrid w h (fun x y => meanPixel (blurSamples (uniformGrid w h c) r x y)) =
    mkGrid w h (fun _ _ => c)
  refine mkGrid_congr ?_
  intro x y hx hy
  refine meanPixel_const (blurSamples_ne_nil _ r x y) ?_
  intro p hp
  simp only [blurSamples, List.mem_flatMap, List.mem_map] at hp
  obtain ⟨dy, _, dx, _, rfl⟩ := hp
  have hcx : clampCoord ((x : Int) + dx) (uniformGrid w h c).width < w := by
    show clampCoord ((x : Int) + dx) w < w
    unfold clampCoord
    omega
  have hcy : clampCoord ((y : Int) + dy) (uniformGrid w h c).height < h := by
    show clampCoord ((y : Int) + dy) h < h
    unfold clampCoord
    omega
  show getPx (mkGrid w h (fun _ _ => c)) _ _ = c
  exact getPx_mkGrid _ hcx hcy

/-- Witness for C7 at a concrete uniform image and radius. -/
theorem C7_witness : blur (uniformGrid 2 3 ⟨5, 6, 7⟩) 1 = uniformGrid 2 3 ⟨5, 6, 7⟩ :=
  C7_blur_uniform 2 3 ⟨5, 6, 7⟩ 1 (by decide)

theorem editorRun_applyOk_keeps_original {β : Type} (o : β) (results : List β) :
    ∀ (cb : Option β) (m : Bool),
      (editorRun ⟨cb, some o, m⟩ (results.map EditorEvent.applyOk)).originalBlob = some o := by
  induction results with
  | nil => intro cb m; rfl
  | cons a t ih =>
      intro cb m
      show (editorRun (editorStep ⟨cb, some o, m⟩ (.applyOk a)) (t.map .applyOk)).originalBlob = some o
      have hstep : editorStep (⟨cb, some o, m⟩ : EditorState β) (.applyOk a) =
          ⟨some a, some o, true⟩ := by
        simp [editorStep]
      rw [hstep]
      exact ih (some a) true

theorem editorStep_reset_of_original {β : Type} (s : EditorState β) (o : β)
    (ho : s.originalBlob = some o) :
    editorStep s EditorEvent.reset = ⟨some o, some o, false⟩ := by
  unfold editorStep
  rw [ho]

/-- C8: no operation mutates the caller's state destructively: after picking
a file and applying any number of successful transform responses, the
original blob reference is intact and reset restores it exactly, with no
engine-side history needed. -/
theorem C8_reset_workflow {β : Type} (f : β) (results : List β) (s0 : EditorState β) :
    (editorRun s0 (EditorEvent.pick f :: results.map EditorEvent.applyOk)).originalBlob = some f ∧
    editorRun s0 ((EditorEvent.pick f :: results.map EditorEvent.applyOk) ++ [EditorEvent.reset]) =
      ⟨some f, some f, false⟩ := by
  have hpick : editorStep s0 (.pick f) = (⟨some f, some f, false⟩ : EditorState β) := rfl
  have horig : (editorRun s0 (EditorEvent.pick f :: results.map EditorEvent.applyOk)).originalBlob
      = some f := by
    show (editorRun (editorStep s0 (.pick f)) (results.map .applyOk)).originalBlob = some f
    rw [hpick]
    exact editorRun_applyOk_keeps_original f results (some f) false
  refine ⟨horig, ?_⟩
  have happ : editorRun s0 ((EditorEvent.pick f :: results.map EditorEvent.applyOk) ++ [EditorEvent.reset])
      = editorStep (editorRun s0 (EditorEvent.pick f :: results.map EditorEvent.applyOk)) .reset := by
    unfold editorRun
    rw [List.foldl_append]
    rfl
  rw [happ, editorStep_reset_of_original _ f horig]

/-- C9: the tile size the editor sends is always at least 1: a non-finite
(non-numeric) entry defaults to 2, and any finite value below 1 is raised
to 1 by the Math.max floor; pixelate's block value has no such floor and
is forwarded as entered (0 and -4 go through unchanged). -/
theorem C9_tile_size_floor :
    (∀ s : String, 1 ≤ tileSizeSent s) ∧
    (∀ s : String, (toNumber s).isFinite = false → tileSizeSent s = 2) ∧
    (∀ (s : String) (q : ℚ), toNumber s = .finite q → q < 1 → tileSizeSent s = 1) ∧
    blockSent "0" = 0 ∧ blockSent "-4" = -4 := by
  refine ⟨?_, ?_, ?_, ?_, ?_⟩
  · intro s
    exact le_max_left _ _
  · intro s hfin
    unfold tileSizeSent
    rw [num_of_not_fin hfin]
    norm_num
  · intro s q hq hlt
    unfold tileSizeSent
    rw [num_of_fin hq]
    exact max_eq_left (le_of_lt hlt)
  · have h := toNumber_fin "0" '0' [] 1 ['0'] ⟨0, 0, 0, 0⟩ (by decide) (by decide) (by decide) (by decide)
    unfold blockSent
    rw [num_of_fin h]
    norm_num [DecLit.val]
  · have h := toNumber_fin "-4" '-' ['4'] (-1) ['4'] ⟨4, 0, 0, 0⟩ (by decide) (by decide) (by decide) (by decide)
    unfold blockSent
    rw [num_of_fin h]
    norm_num [DecLit.val]

/-- Witness for C9 at concrete field entries. -/
theorem C9_witness :
    1 ≤ tileSizeSent "" ∧ tileSizeSent "abc" = 2 ∧ tileSizeSent "0" = 1 := by
  have h := C9_tile_size_floor
  refine ⟨h.1 "", h.2.1 "abc" (by decide), h.2.2.1 "0" 0 ?_ (by norm_num)⟩
  have h0 := toNumber_fin "0" '0' [] 1 ['0'] ⟨0, 0, 0, 0⟩ (by decide) (by decide) (by decide) (by decide)
  rw [h0]
  norm_num [DecLit.val]

/-- C10 counterexample: the empty string is coerced by Number to 0, which is
finite, so num returns 0 and not the fallback 1. -/
theorem C10_counterexample : num "" 1 = 0 ∧ num "" 1 ≠ 1 := by
  have h : toNumber "" = .finite 0 := by decide
  rw [num_of_fin h]
  norm_num

/-- C10 (amended): num returns the fallback exactly when Number(s) is NaN or
infinite; a finite coercion (including the empty string, which coerces to 0)
is forwarded as-is, and the non-numeric defaults are 0 for color deltas and
shift amounts, 1 for the brightness factor, 90 for rotate degrees, 2 for
tile size (after the floor) and 8 for the pixelate block. -/
theorem C10_num_fallback :
    (∀ (s : String) (f : ℚ), (toNumber s).isFinite = false → num s f = f) ∧
    (∀ (s : String) (f q : ℚ), toNumber s = .finite q → num s f = q) ∧
    num "" 1 = 0 ∧
    addColorDeltaSent "abc" = 0 ∧ amountSent "abc" = 0 ∧ factorSent "abc" = 1 ∧
    degreesSent "abc" = 90 ∧ tileSizeSent "abc" = 2 ∧ blockSent "abc" = 8 := by
  have hnan : (toNumber "abc").isFinite = false := by decide
  refine ⟨?_, ?_, ?_, ?_, ?_, ?_, ?_, ?_, ?_⟩
  · intro s f hfin
    exact num_of_not_fin hfin f
  · intro s f q hq
    exact num_of_fin hq f
  · have h : toNumber "" = .finite 0 := by decide
    rw [num_of_fin h]
  · exact num_of_not_fin hnan 0
  · exact num_of_not_fin hnan 0
  · exact num_of_not_fin hnan 1
  · exact num_of_not_fin hnan 90
  · unfold tileSizeSent
    rw [num_of_not_fin hnan]
    norm_num
  · exact num_of_not_fin hnan 8

/-- Witness for the amended C10 at a concrete non-numeric entry. -/
theorem C10_witness : num "abc" 5 = 5 :=
  C10_num_fallback.1 "abc" 5 (by decide)
